import Mathlib

/-!
Shallow embedding of `sysidentpy/basis_function/_bspline.py`.

Real numbers are modelled as `ℚ` (every breakpoint and coefficient in the
source is a rational literal); the dyadic scale factor `2^(j/2)` lives in
`ℚ[√2]`, modelled by the pair type `Q2` below.

Every `phi`/`psi` in the source is a call to `np.piecewise` whose condition
list always has the shape `[x < b₀, b₀ ≤ x < b₁, …, x ≥ b_last]` and whose
function list has one entry per condition (first and last entries are the
constant 0).  We embed each such function as a breakpoint list plus a list of
polynomial coefficient vectors (ascending degree), and evaluate with the exact
`np.piecewise` semantics: output starts at 0 and each matching condition
overwrites it (last match wins; no match leaves 0).
-/

namespace BSpline

/-- Horner evaluation of a polynomial given by ascending coefficients,
mirroring the closed-form `lambda x: c0 + c1*x + …` branches of the source. -/
def polyEval (cs : List ℚ) (x : ℚ) : ℚ :=
  cs.foldr (fun c acc => c + x * acc) 0

/-- Conditions after the leading `x < b₀`: the half-open interval tests
`bᵢ ≤ x < bᵢ₊₁` and the final `x ≥ b_last`, exactly as written in every
`np.piecewise` call of the source. -/
def midConds (a : ℚ) : List ℚ → ℚ → List Bool
  | [], x => [decide (x ≥ a)]
  | b :: rest, x => decide (a ≤ x ∧ x < b) :: midConds b rest x

/-- Full condition list of one source `np.piecewise` call with breakpoints
`bps`: `[x < b₀, b₀ ≤ x < b₁, …, x ≥ b_last]`. -/
def conds : List ℚ → ℚ → List Bool
  | [], _ => []
  | b :: rest, x => decide (x < b) :: midConds b rest x

/-- Evaluation core of `np.piecewise`: the output starts as 0 and every pair
whose condition holds overwrites it (later conditions win). -/
def pwGo (x : ℚ) (acc : ℚ) : List (Bool × List ℚ) → ℚ
  | [] => acc
  | (c, p) :: rest => pwGo x (if c then polyEval p x else acc) rest

/-- One `np.piecewise` call of the source: condition list generated from the
breakpoints, function list `polys` (one polynomial per condition). -/
def piecewise (bps : List ℚ) (polys : List (List ℚ)) (x : ℚ) : ℚ :=
  pwGo x 0 ((conds bps x).zip polys)

/-! Coefficient tables, transcribed branch by branch from the source.
A polynomial `a*x**2 + b*x + c` becomes `[c, b, a]` (ascending degree). -/

/-- Breakpoints of `BSpline1.phi` (source lines 108-110). -/
def phi1_bps : List ℚ := [0, 1]

/-- Function list of `BSpline1.phi`: `[0, 1, 0]`. -/
def phi1_polys : List (List ℚ) := [[0], [1], [0]]

/-- Breakpoints of `BSpline1.psi` (source lines 112-115). -/
def psi1_bps : List ℚ := [0, 1/2, 1]

/-- Function list of `BSpline1.psi`: `[0, 1, -1, 0]`. -/
def psi1_polys : List (List ℚ) := [[0], [1], [-1], [0]]

/-- Breakpoints of `BSpline2.phi` (source lines 123-126). -/
def phi2_bps : List ℚ := [0, 1, 2]

/-- Function list of `BSpline2.phi`: `[0, x, -x + 2, 0]`. -/
def phi2_polys : List (List ℚ) := [[0], [0, 1], [2, -1], [0]]

/-- Breakpoints of `BSpline2.psi` (source lines 128-137). -/
def psi2_bps : List ℚ := [0, 1/2, 1, 3/2, 2, 5/2, 3]

/-- Function list of `BSpline2.psi` (source lines 133-137). -/
def psi2_polys : List (List ℚ) :=
  [[0],
   [0, 1/6],
   [2/3, -7/6],
   [-19/6, 8/3],
   [29/6, -8/3],
   [-17/6, 7/6],
   [1/2, -1/6],
   [0]]

/-- Breakpoints of `BSpline3.phi` (source lines 145-152). -/
def phi3_bps : List ℚ := [0, 1, 2, 3]

/-- Function list of `BSpline3.phi` (source lines 149-152). -/
def phi3_polys : List (List ℚ) :=
  [[0],
   [0, 0, 1/2],
   [-3/2, 3, -1],
   [9/2, -3, 1/2],
   [0]]

/-- Breakpoints of `BSpline3.psi` (source lines 154-172). -/
def psi3_bps : List ℚ := [0, 1/2, 1, 3/2, 2, 5/2, 3, 7/2, 4, 9/2, 5]

/-- Function list of `BSpline3.psi` (source lines 161-172). -/
def psi3_polys : List (List ℚ) :=
  [[0],
   [0, 0, 1/240],
   [-1/30, 2/15, -31/240],
   [229/240, -221/120, 103/120],
   [-1643/240, 1027/120, -313/120],
   [339/16, -779/40, 22/5],
   [-541/16, 981/40, -22/5],
   [2341/80, -701/40, 313/120],
   [-3169/240, 809/120, -103/120],
   [623/240, -139/120, 31/240],
   [-5/48, 1/24, -1/240],
   [0]]

/-- Breakpoints of `BSpline4.phi` (source lines 180-189). -/
def phi4_bps : List ℚ := [0, 1, 2, 3, 4]

/-- Function list of `BSpline4.phi` (source lines 184-189). -/
def phi4_polys : List (List ℚ) :=
  [[0],
   [0, 0, 0, 1/6],
   [2/3, -2, 2, -1/2],
   [-22/3, 10, -4, 1/2],
   [32/3, -8, 2, -1/6],
   [0]]

/-- Breakpoints of `BSpline4.psi` (source lines 191-218). -/
def psi4_bps : List ℚ := [0, 1/2, 1, 3/2, 2, 5/2, 3, 7/2, 4, 9/2, 5, 11/2, 6, 13/2, 7]

/-- Function list of `BSpline4.psi` (source lines 200-218). -/
def psi4_polys : List (List ℚ) :=
  [[0],
   [0, 0, 0, 1/30240],
   [1/1890, -1/315, 2/315, -127/30240],
   [-103/1440, 2147/10080, -47/224, 19/280],
   [16559/10080, -32413/10080, 465/224, -1109/2520],
   [-145193/10080, 42043/2016, -33463/3360, 5261/3360],
   [216269/3360, -148517/2016, 93577/3360, -35033/10080],
   [-28145/168, 113923/720, -27691/560, 4832/945],
   [2048227/7560, -52223/240, 58393/1008, -4832/945],
   [-234149/840, 981101/5040, -75827/1680, 35033/10080],
   [30347/168, -112487/1008, 38509/1680, -5261/3360],
   [-141311/2016, 78311/2016, -24077/3360, 1109/2520],
   [4151/288, -14617/2016, 1361/1120, -19/280],
   [-11603/10080, 5359/10080, -55/672, 127/30240],
   [49/4320, -7/1440, 1/1440, -1/30240],
   [0]]

/-- Breakpoints of `BSpline5.phi` (source lines 226-238). -/
def phi5_bps : List ℚ := [0, 1, 2, 3, 4, 5]

/-- Function list of `BSpline5.phi` (source lines 231-238). -/
def phi5_polys : List (List ℚ) :=
  [[0],
   [0, 0, 0, 0, 1/24],
   [-5/24, 5/6, -5/4, 5/6, -1/6],
   [155/24, -25/2, 35/4, -5/2, 1/4],
   [-655/24, 65/2, -55/4, 5/2, -1/6],
   [625/24, -125/6, 25/4, -5/6, 1/24],
   [0]]

/-- Breakpoints of `BSpline5.psi` (source lines 240-253). -/
def psi5_bps : List ℚ :=
  [0, 1/2, 1, 3/2, 2, 5/2, 3, 7/2, 4, 9/2, 5, 11/2, 6, 13/2, 7, 15/2, 8, 17/2, 9]

/-- Function list of `BSpline5.psi` (source lines 254-305); the branch on
`[3, 7/2)` carries the constant `497668543/2903040` flagged in the source
comment. -/
def psi5_polys : List (List ℚ) :=
  [[0],
   [0, 0, 0, 0, 1/8709120],
   [-1/272160, 1/34020, -1/11340, 1/8505, -73/1244160],
   [6547/2903040, -19609/2177280, 1303/96768, -19417/2177280, 9581/4354560],
   [-427181/2903040, 121121/311040, -186253/483840, 366119/2177280, -118931/4354560],
   [26819897/8709120, -13202873/2177280, 6466601/1451520, -3146561/2177280, 759239/4354560],
   [-12635243/414720, 426589/8960, -13426333/483840, 5183893/725760, -2980409/4354560],
   [497668543/2903040, -17868671/80640, 7385369/69120, -16524079/725760, 7873577/4354560],
   [-5286189059/8709120, 1454458651/2177280, -56901557/207360, 108543091/2177280, -14714327/4354560],
   [277413649/193536, -597598433/435456, 15828929/32256, -33822017/435456, 15619/3402],
   [-64472345/27648, 859841695/435456, -20157247/32256, 38150335/435456, -15619/3402],
   [4614904015/1741824, -875490655/435456, 165651247/290304, -4466137/62208, 14714327/4354560],
   [-869722273/414720, 16606729/11520, -179437319/483840, 30717383/725760, -7873577/4354560],
   [3289787993/2903040, -19138891/26880, 16211669/96768, -12698561/725760, 2980409/4354560],
   [-3481646837/8709120, 71964499/311040, -10403603/207360, 10519741/2177280, -759239/4354560],
   [245108501/2903040, -14096161/311040, 630259/69120, -1774639/2177280, 118931/4354560],
   [-25971499/2903040, 9758873/2177280, -407387/483840, 21863/311040, -9581/4354560],
   [380873/1244160, -313703/2177280, 5273/207360, -4343/2177280, 73/1244160],
   [-27/35840, 3/8960, -1/17920, 1/241920, -1/8709120],
   [0]]

/-- B-spline wavelet classes recorded by the metaclass registry, in
definition order: the abstract base `BSplineWavelets` plus `BSpline1` …
`BSpline5`. -/
inductive Cls where
  | base
  | b1
  | b2
  | b3
  | b4
  | b5
  deriving DecidableEq, Repr

/-- Value of the `order` class attribute (`None` for the base class). -/
def clsOrder : Cls → Option ℤ
  | .base => none
  | .b1 => some 1
  | .b2 => some 2
  | .b3 => some 3
  | .b4 => some 4
  | .b5 => some 5

/-- Scaling function of `BSpline1` (source lines 108-110). -/
def phi1 (x : ℚ) : ℚ := piecewise phi1_bps phi1_polys x

/-- Wavelet function of `BSpline1` (source lines 112-115). -/
def psi1 (x : ℚ) : ℚ := piecewise psi1_bps psi1_polys x

/-- Scaling function of `BSpline2` (source lines 123-126). -/
def phi2 (x : ℚ) : ℚ := piecewise phi2_bps phi2_polys x

/-- Wavelet function of `BSpline2` (source lines 128-137). -/
def psi2 (x : ℚ) : ℚ := piecewise psi2_bps psi2_polys x

/-- Scaling function of `BSpline3` (source lines 145-152). -/
def phi3 (x : ℚ) : ℚ := piecewise phi3_bps phi3_polys x

/-- Wavelet function of `BSpline3` (source lines 154-172). -/
def psi3 (x : ℚ) : ℚ := piecewise psi3_bps psi3_polys x

/-- Scaling function of `BSpline4` (source lines 180-189). -/
def phi4 (x : ℚ) : ℚ := piecewise phi4_bps phi4_polys x

/-- Wavelet function of `BSpline4` (source lines 191-218). -/
def psi4 (x : ℚ) : ℚ := piecewise psi4_bps psi4_polys x

/-- Scaling function of `BSpline5` (source lines 226-238). -/
def phi5 (x : ℚ) : ℚ := piecewise phi5_bps phi5_polys x

/-- Wavelet function of `BSpline5` (source lines 240-305). -/
def psi5 (x : ℚ) : ℚ := piecewise psi5_bps psi5_polys x

/-! Generic facts about the chain-shaped condition lists. -/

theorem midConds_all_false {x a : ℚ} (hx : x < a) :
    ∀ l : List ℚ, List.Chain (· < ·) a l → ∀ c ∈ midConds a l x, c = false := by
  intro l
  induction l generalizing a with
  | nil =>
    intro _ c hc
    simp only [midConds, List.mem_singleton] at hc
    subst hc
    simp [not_le.mpr hx]
  | cons b l ih =>
    intro hchain c hc
    rcases List.chain_cons.mp hchain with ⟨hab, hchain'⟩
    simp only [midConds, List.mem_cons] at hc
    rcases hc with rfl | hc
    · have hno : ¬(a ≤ x ∧ x < b) := fun hcon => absurd hcon.1 (not_le.mpr hx)
      simp [hno]
    · exact ih (hx.trans hab) hchain' c hc

theorem count_true_eq_zero {l : List Bool} (h : ∀ c ∈ l, c = false) :
    l.count true = 0 :=
  List.count_eq_zero.mpr (fun ht => by simpa using h true ht)

theorem midConds_count_true {x a : ℚ} (hx : a ≤ x) :
    ∀ l : List ℚ, List.Chain (· < ·) a l → (midConds a l x).count true = 1 := by
  intro l
  induction l generalizing a with
  | nil =>
    intro _
    simp [midConds, hx]
  | cons b l ih =>
    intro hchain
    rcases List.chain_cons.mp hchain with ⟨hab, hchain'⟩
    rcases le_or_lt b x with hbx | hxb
    · have hcond : decide (a ≤ x ∧ x < b) = false := by
        have hno : ¬(a ≤ x ∧ x < b) := fun hcon => absurd hcon.2 (not_lt.mpr hbx)
        simp [hno]
      simp only [midConds, List.count_cons, hcond]
      simpa using ih hbx hchain'
    · have hcond : decide (a ≤ x ∧ x < b) = true := by simp [hx, hxb]
      have hzero : (midConds b l x).count true = 0 :=
        count_true_eq_zero (midConds_all_false hxb l hchain')
      simp [midConds, List.count_cons, hcond, hzero]

theorem conds_count_true {x b : ℚ} {l : List ℚ} (hchain : List.Chain (· < ·) b l) :
    (conds (b :: l) x).count true = 1 := by
  rcases lt_or_le x b with hxb | hbx
  · have hzero : (midConds b l x).count true = 0 :=
      count_true_eq_zero (midConds_all_false hxb l hchain)
    simp [conds, List.count_cons, hzero, decide_eq_true hxb]
  · have hcond : decide (x < b) = false := by simp [not_lt.mpr hbx]
    simp [conds, List.count_cons, midConds_count_true hbx l hchain, hcond]

/-! Generic facts about `pwGo` used for the compact-support claim. -/

theorem pwGo_all_false {x acc : ℚ} :
    ∀ l : List (Bool × List ℚ), (∀ p ∈ l, p.1 = false) → pwGo x acc l = acc := by
  intro l
  induction l generalizing acc with
  | nil => intro _; rfl
  | cons p rest ih =>
    intro h
    have hp : p.1 = false := h p (List.mem_cons_self p rest)
    obtain ⟨c, q⟩ := p
    simp only at hp
    subst hp
    simp only [pwGo, Bool.false_eq_true, if_false]
    exact ih fun r hr => h r (List.mem_cons_of_mem _ hr)

theorem getLastD_irrel {α : Type} : ∀ (l : List α), l ≠ [] → ∀ d₁ d₂ : α,
    l.getLastD d₁ = l.getLastD d₂
  | [], h, _, _ => absurd rfl h
  | _ :: l, _, _, _ => by rw [List.getLastD_cons, List.getLastD_cons]

theorem le_getLastD {b : ℚ} :
    ∀ l : List ℚ, List.Chain (· < ·) b l → b ≤ l.getLastD b := by
  intro l
  induction l generalizing b with
  | nil => intro _; exact le_rfl
  | cons c l ih =>
    intro hchain
    rcases List.chain_cons.mp hchain with ⟨hbc, hchain'⟩
    rw [List.getLastD_cons]
    exact hbc.le.trans (ih hchain')

theorem pwGo_mid_last {x : ℚ} :
    ∀ (l : List ℚ) (a : ℚ) (polys : List (List ℚ)) (acc : ℚ),
      polys.length = l.length + 1 →
      List.Chain (· < ·) a l →
      l.getLastD a ≤ x →
      pwGo x acc ((midConds a l x).zip polys) = polyEval (polys.getLastD []) x := by
  intro l
  induction l with
  | nil =>
    intro a polys acc hlen _ hx
    match polys, hlen with
    | [p], _ =>
      rw [List.getLastD_nil] at hx
      have hz : (midConds a [] x).zip [p] = [(decide (x ≥ a), p)] := rfl
      rw [hz]
      simp only [pwGo, decide_eq_true hx, if_true]
      rw [List.getLastD_cons, List.getLastD_nil]
  | cons b l ih =>
    intro a polys acc hlen hchain hx
    match polys, hlen with
    | p :: ps, hlen =>
      rcases List.chain_cons.mp hchain with ⟨hab, hchain'⟩
      rw [List.getLastD_cons] at hx
      have hbx : b ≤ x := (le_getLastD l hchain').trans hx
      have hcond : decide (a ≤ x ∧ x < b) = false := by
        have hno : ¬(a ≤ x ∧ x < b) := fun hcon => absurd hcon.2 (not_lt.mpr hbx)
        simp [hno]
      have hps : ps ≠ [] := by
        intro h
        subst h
        simp at hlen
      have hlen' : ps.length = l.length + 1 := by simpa using hlen
      have hz : (midConds a (b :: l) x).zip (p :: ps) =
          (decide (a ≤ x ∧ x < b), p) :: (midConds b l x).zip ps := rfl
      rw [hz]
      simp only [pwGo, hcond, Bool.false_eq_true, if_false]
      rw [ih b ps acc hlen' hchain' hx, List.getLastD_cons, getLastD_irrel ps hps p []]

theorem piecewise_lower {x b : ℚ} {l : List ℚ} {polys : List (List ℚ)} {p : List ℚ}
    {ps : List (List ℚ)} (hp : polys = p :: ps)
    (hchain : List.Chain (· < ·) b l) (hx : x < b) :
    piecewise (b :: l) polys x = polyEval p x := by
  subst hp
  have hz : (conds (b :: l) x).zip (p :: ps) =
      (decide (x < b), p) :: (midConds b l x).zip ps := rfl
  rw [piecewise, hz]
  simp only [pwGo, decide_eq_true hx, if_true]
  refine pwGo_all_false _ fun r hr => ?_
  exact midConds_all_false hx l hchain r.1 (List.of_mem_zip hr).1

theorem piecewise_upper {x b : ℚ} {l : List ℚ} {polys : List (List ℚ)} {p : List ℚ}
    {ps : List (List ℚ)} (hp : polys = p :: ps) (hlen : ps.length = l.length + 1)
    (hchain : List.Chain (· < ·) b l) (hx : l.getLastD b ≤ x) :
    piecewise (b :: l) polys x = polyEval (ps.getLastD []) x := by
  subst hp
  have hbx : b ≤ x := (le_getLastD l hchain).trans hx
  have hcond : decide (x < b) = false := by simp [not_lt.mpr hbx]
  have hz : (conds (b :: l) x).zip (p :: ps) =
      (decide (x < b), p) :: (midConds b l x).zip ps := rfl
  rw [piecewise, hz]
  simp only [pwGo, hcond, Bool.false_eq_true, if_false]
  exact pwGo_mid_last l b ps 0 hlen hchain hx

theorem support_zero (b : ℚ) (l : List ℚ) (ps : List (List ℚ))
    (hlen : ps.length = l.length + 1)
    (hlast : ps.getLastD [] = [0]) (hchain : List.Chain (· < ·) b l)
    {x : ℚ} (hx : x < b ∨ l.getLastD b ≤ x) :
    piecewise (b :: l) ([0] :: ps) x = 0 := by
  rcases hx with hx | hx
  · rw [piecewise_lower rfl hchain hx]
    simp [polyEval]
  · rw [piecewise_upper rfl hlen hchain hx, hlast]
    simp [polyEval]

/-- C4: for every registered order (1 through 5) and every real input
(modelled as `ℚ`; NaN is treated separately), exactly one predicate branch of
`phi`'s condition list and exactly one predicate branch of `psi`'s condition
list is true — no input triggers zero or multiple branches. -/
theorem branch_partition (x : ℚ) :
    (conds phi1_bps x).count true = 1 ∧ (conds psi1_bps x).count true = 1 ∧
    (conds phi2_bps x).count true = 1 ∧ (conds psi2_bps x).count true = 1 ∧
    (conds phi3_bps x).count true = 1 ∧ (conds psi3_bps x).count true = 1 ∧
    (conds phi4_bps x).count true = 1 ∧ (conds psi4_bps x).count true = 1 ∧
    (conds phi5_bps x).count true = 1 ∧ (conds psi5_bps x).count true = 1 := by
  refine ⟨?_, ?_, ?_, ?_, ?_, ?_, ?_, ?_, ?_, ?_⟩ <;>
    exact conds_count_true (by norm_num [List.chain_cons])

/-- C5: for every registered order `n`, `phi x = 0` whenever `x < 0` or
`n ≤ x`, and `psi x = 0` whenever `x < 0` or `2n - 1 ≤ x` (compact support
`[0, n]` for `phi`, `[0, 2n - 1]` for `psi`). -/
theorem compact_support (x : ℚ) :
    (x < 0 ∨ 1 ≤ x → phi1 x = 0) ∧ (x < 0 ∨ 1 ≤ x → psi1 x = 0) ∧
    (x < 0 ∨ 2 ≤ x → phi2 x = 0) ∧ (x < 0 ∨ 3 ≤ x → psi2 x = 0) ∧
    (x < 0 ∨ 3 ≤ x → phi3 x = 0) ∧ (x < 0 ∨ 5 ≤ x → psi3 x = 0) ∧
    (x < 0 ∨ 4 ≤ x → phi4 x = 0) ∧ (x < 0 ∨ 7 ≤ x → psi4 x = 0) ∧
    (x < 0 ∨ 5 ≤ x → phi5 x = 0) ∧ (x < 0 ∨ 9 ≤ x → psi5 x = 0) := by
  refine ⟨fun hx => support_zero 0 (phi1_bps.drop 1) (phi1_polys.drop 1) rfl rfl
      (by norm_num [phi1_bps, List.chain_cons]) hx,
    fun hx => support_zero 0 (psi1_bps.drop 1) (psi1_polys.drop 1) rfl rfl
      (by norm_num [psi1_bps, List.chain_cons]) hx,
    fun hx => support_zero 0 (phi2_bps.drop 1) (phi2_polys.drop 1) rfl rfl
      (by norm_num [phi2_bps, List.chain_cons]) hx,
    fun hx => support_zero 0 (psi2_bps.drop 1) (psi2_polys.drop 1) rfl rfl
      (by norm_num [psi2_bps, List.chain_cons]) hx,
    fun hx => support_zero 0 (phi3_bps.drop 1) (phi3_polys.drop 1) rfl rfl
      (by norm_num [phi3_bps, List.chain_cons]) hx,
    fun hx => support_zero 0 (psi3_bps.drop 1) (psi3_polys.drop 1) rfl rfl
      (by norm_num [psi3_bps, List.chain_cons]) hx,
    fun hx => support_zero 0 (phi4_bps.drop 1) (phi4_polys.drop 1) rfl rfl
      (by norm_num [phi4_bps, List.chain_cons]) hx,
    fun hx => support_zero 0 (psi4_bps.drop 1) (psi4_polys.drop 1) rfl rfl
      (by norm_num [psi4_bps, List.chain_cons]) hx,
    fun hx => support_zero 0 (phi5_bps.drop 1) (phi5_polys.drop 1) rfl rfl
      (by norm_num [phi5_bps, List.chain_cons]) hx,
    fun hx => support_zero 0 (psi5_bps.drop 1) (psi5_polys.drop 1) rfl rfl
      (by norm_num [psi5_bps, List.chain_cons]) hx⟩

/-- C5 witness: instantiation of `compact_support` at the concrete point
`x = -1` for `phi1`. -/
theorem compact_support_witness :
    ((-1 : ℚ) < 0 ∨ 1 ≤ (-1 : ℚ)) ∧ phi1 (-1) = 0 :=
  ⟨Or.inl (by norm_num), (compact_support (-1)).1 (Or.inl (by norm_num))⟩

/-- Exact equality of the two adjacent polynomial branches at each listed
junction: `junctionPairsEq [f₁, …, f_m] [b₁, …]` states
`f₁ b₁ = f₂ b₁`, `f₂ b₂ = f₃ b₂`, … with exact rational arithmetic. -/
def junctionPairsEq : List (List ℚ) → List ℚ → Prop
  | p :: q :: ps, b :: bs =>
      polyEval p b = polyEval q b ∧ junctionPairsEq (q :: ps) bs
  | _, _ => True

/-- Internal junctions of one piecewise table: every breakpoint except the
two outer edges of the support, paired with the polynomial branches on each
side (the leading and trailing constant-0 branches are dropped). -/
def internalContinuity (bps : List ℚ) (polys : List (List ℚ)) : Prop :=
  junctionPairsEq (polys.drop 1) ((bps.drop 1).dropLast)

/-- C6: for every registered order `n ≥ 2`, the value of the left branch's
polynomial at each internal breakpoint equals the value of the right branch's
polynomial there, with coefficients read as exact rationals; this includes
the order-5 `psi` junctions at `3` and `7/2` adjacent to the branch carrying
the flagged constant `497668543/2903040`. -/
theorem internal_junction_continuity :
    internalContinuity phi2_bps phi2_polys ∧ internalContinuity psi2_bps psi2_polys ∧
    internalContinuity phi3_bps phi3_polys ∧ internalContinuity psi3_bps psi3_polys ∧
    internalContinuity phi4_bps phi4_polys ∧ internalContinuity psi4_bps psi4_polys ∧
    internalContinuity phi5_bps phi5_polys ∧ internalContinuity psi5_bps psi5_polys := by
  refine ⟨?_, ?_, ?_, ?_, ?_, ?_, ?_, ?_⟩ <;>
    norm_num [internalContinuity, junctionPairsEq, polyEval,
      phi2_bps, phi2_polys, psi2_bps, psi2_polys, phi3_bps, phi3_polys,
      psi3_bps, psi3_polys, phi4_bps, phi4_polys, psi4_bps, psi4_polys,
      phi5_bps, phi5_polys, psi5_bps, psi5_polys]

/-! Float semantics for NaN input (claim C8).  `np.piecewise` evaluates the
same ordered comparisons under IEEE semantics, where every comparison with
NaN is false, and elements matched by no condition keep the initial value 0. -/

/-- Real value or NaN, as seen by the predicates of `np.piecewise`. -/
inductive RV where
  | nan
  | val (q : ℚ)
  deriving DecidableEq, Repr

/-- IEEE-ordered `x < b`: false when `x` is NaN. -/
def rvLtQ : RV → ℚ → Bool
  | .nan, _ => false
  | .val q, b => decide (q < b)

/-- IEEE-ordered `x ≥ a`: false when `x` is NaN. -/
def rvGeQ : RV → ℚ → Bool
  | .nan, _ => false
  | .val q, a => decide (q ≥ a)

/-- IEEE-ordered `a ≤ x ∧ x < b`: false when `x` is NaN. -/
def rvInCO (a : ℚ) : RV → ℚ → Bool
  | .nan, _ => false
  | .val q, b => decide (a ≤ q ∧ q < b)

/-- Interval conditions after the first, under IEEE comparison semantics. -/
def midCondsRV (a : ℚ) : List ℚ → RV → List Bool
  | [], x => [rvGeQ x a]
  | b :: rest, x => rvInCO a x b :: midCondsRV b rest x

/-- Full condition list of one source `np.piecewise` call under IEEE
comparison semantics. -/
def condsRV : List ℚ → RV → List Bool
  | [], _ => []
  | b :: rest, x => rvLtQ x b :: midCondsRV b rest x

/-- Polynomial branch under float semantics: NaN propagates. -/
def polyEvalRV (cs : List ℚ) : RV → RV
  | .nan => .nan
  | .val q => .val (polyEval cs q)

/-- Evaluation core of `np.piecewise` under float semantics: output starts
at 0 and each matching condition overwrites it. -/
def pwGoRV (x : RV) (acc : RV) : List (Bool × List ℚ) → RV
  | [] => acc
  | (c, p) :: rest => pwGoRV x (if c then polyEvalRV p x else acc) rest

/-- One source `np.piecewise` call under float semantics. -/
def piecewiseRV (bps : List ℚ) (polys : List (List ℚ)) (x : RV) : RV :=
  pwGoRV x (.val 0) ((condsRV bps x).zip polys)

/-- C8 counterexample: on NaN input, `BSpline1.phi` silently evaluates to 0
(`np.piecewise` leaves unmatched elements at the initial value 0); no error
of any kind is raised, contradicting the claimed `InvalidInputError`. -/
theorem nan_counterexample :
    piecewiseRV phi1_bps phi1_polys RV.nan = RV.val 0 := rfl

/-- C8 amended: for every registered order, no branch predicate of `phi` or
`psi` matches NaN (ordered comparisons are false on NaN), and the
`np.piecewise` evaluation returns 0 silently instead of failing. -/
theorem nan_silent_zero :
    (condsRV phi1_bps RV.nan).count true = 0 ∧
      piecewiseRV phi1_bps phi1_polys RV.nan = RV.val 0 ∧
    (condsRV psi1_bps RV.nan).count true = 0 ∧
      piecewiseRV psi1_bps psi1_polys RV.nan = RV.val 0 ∧
    (condsRV phi2_bps RV.nan).count true = 0 ∧
      piecewiseRV phi2_bps phi2_polys RV.nan = RV.val 0 ∧
    (condsRV psi2_bps RV.nan).count true = 0 ∧
      piecewiseRV psi2_bps psi2_polys RV.nan = RV.val 0 ∧
    (condsRV phi3_bps RV.nan).count true = 0 ∧
      piecewiseRV phi3_bps phi3_polys RV.nan = RV.val 0 ∧
    (condsRV psi3_bps RV.nan).count true = 0 ∧
      piecewiseRV psi3_bps psi3_polys RV.nan = RV.val 0 ∧
    (condsRV phi4_bps RV.nan).count true = 0 ∧
      piecewiseRV phi4_bps phi4_polys RV.nan = RV.val 0 ∧
    (condsRV psi4_bps RV.nan).count true = 0 ∧
      piecewiseRV psi4_bps psi4_polys RV.nan = RV.val 0 ∧
    (condsRV phi5_bps RV.nan).count true = 0 ∧
      piecewiseRV phi5_bps phi5_polys RV.nan = RV.val 0 ∧
    (condsRV psi5_bps RV.nan).count true = 0 ∧
      piecewiseRV psi5_bps psi5_polys RV.nan = RV.val 0 := by
  refine ⟨?_, ?_, ?_, ?_, ?_, ?_, ?_, ?_, ?_, ?_,
    ?_, ?_, ?_, ?_, ?_, ?_, ?_, ?_, ?_, ?_⟩ <;> rfl

/-! Registry, factory and method dispatch (source lines 10-100). -/

/-- Exceptions raised by the source module. -/
inductive Err where
  /-- `NotImplementedError("B-spline wavelet with order {} not implemented!")`
  raised by `MetaBSplineWavelets.get` (source lines 26-29); carries the
  requested order. -/
  | notImplementedOrder (order : Option ℤ)
  /-- Bare `NotImplementedError` raised by the base class's `phi`/`psi`
  (source lines 47 and 57). -/
  | notImplemented
  /-- Python `TypeError` from arithmetic on the base class's `None` order. -/
  | typeError
  deriving DecidableEq, Repr

/-- Registration map built by `MetaBSplineWavelets.__new__` (source lines
18-22) as the classes are defined: the base class registers under its
`order = None`, then `BSpline1` … `BSpline5` under 1 … 5. -/
def cls_map : List (Option ℤ × Cls) :=
  [(none, .base), (some 1, .b1), (some 2, .b2), (some 3, .b3),
   (some 4, .b4), (some 5, .b5)]

/-- `MetaBSplineWavelets.get` (source lines 24-30): raise when the order is
not a key of `cls_map`, else return the registered class. -/
def metaGet (order : Option ℤ) : Except Err Cls :=
  match cls_map.lookup order with
  | some c => .ok c
  | none => .error (.notImplementedOrder order)

/-- `BSplineWavelets.get_bspline` (source lines 97-100): resolve the class
and instantiate it (a class object is always truthy, so the `if cls` branch
always instantiates the resolved class). -/
def get_bspline (order : Option ℤ) : Except Err Cls :=
  metaGet order

/-- `phi` method dispatch: the base class raises `NotImplementedError`
(source line 47); each subclass evaluates its piecewise table. -/
def clsPhi : Cls → ℚ → Except Err ℚ
  | .base, _ => .error .notImplemented
  | .b1, x => .ok (phi1 x)
  | .b2, x => .ok (phi2 x)
  | .b3, x => .ok (phi3 x)
  | .b4, x => .ok (phi4 x)
  | .b5, x => .ok (phi5 x)

/-- `psi` method dispatch: the base class raises `NotImplementedError`
(source line 57); each subclass evaluates its piecewise table. -/
def clsPsi : Cls → ℚ → Except Err ℚ
  | .base, _ => .error .notImplemented
  | .b1, x => .ok (psi1 x)
  | .b2, x => .ok (psi2 x)
  | .b3, x => .ok (psi3 x)
  | .b4, x => .ok (psi4 x)
  | .b5, x => .ok (psi5 x)

/-- Pure value of `phi` on the concrete subclasses (0 on the base class,
which never reaches this function). -/
def phiVal : Cls → ℚ → ℚ
  | .base, _ => 0
  | .b1, x => phi1 x
  | .b2, x => phi2 x
  | .b3, x => phi3 x
  | .b4, x => phi4 x
  | .b5, x => phi5 x

/-- Pure value of `psi` on the concrete subclasses. -/
def psiVal : Cls → ℚ → ℚ
  | .base, _ => 0
  | .b1, x => psi1 x
  | .b2, x => psi2 x
  | .b3, x => psi3 x
  | .b4, x => psi4 x
  | .b5, x => psi5 x

theorem clsPhi_eq {c : Cls} (hc : c ≠ .base) (x : ℚ) :
    clsPhi c x = .ok (phiVal c x) := by
  cases c
  · exact absurd rfl hc
  all_goals rfl

theorem clsPsi_eq {c : Cls} (hc : c ≠ .base) (x : ℚ) :
    clsPsi c x = .ok (psiVal c x) := by
  cases c
  · exact absurd rfl hc
  all_goals rfl

/-- C10: the registry contains an entry under the key `None` (the abstract
base class registers itself with `order = None`), so `get_bspline(None)`
does not raise the unsupported-order error: it returns the base class, whose
`phi` and `psi` raise `NotImplementedError` when called. -/
theorem base_registry_none :
    get_bspline none = .ok Cls.base ∧
    ∀ x : ℚ, clsPhi Cls.base x = .error Err.notImplemented ∧
      clsPsi Cls.base x = .error Err.notImplemented :=
  ⟨rfl, fun _ => ⟨rfl, rfl⟩⟩

/-! Index-range enumeration (source lines 65-90). -/

/-- Python `range(a, b)` over the integers. -/
def intRange (a b : ℤ) : List ℤ :=
  (List.range (b - a).toNat).map (fun i : ℕ => a + (i : ℤ))

/-- `BSplineWavelets.phi_range` (source lines 65-69):
`[(0, k) for k in range(-(order - 1), 1)]`. -/
def phi_range (order : ℤ) : List (ℤ × ℤ) :=
  (intRange (-(order - 1)) 1).map (fun k => ((0 : ℤ), k))

/-- `BSplineWavelets.psi_range` (source lines 71-78): for each
`psi_j in range(order + 1)`, extend with
`[(psi_j, k) for k in range(-2**(order - 1) + 1, 2**psi_j)]`.
When the loop body runs with `order - 1 < 0` (exactly `order = 0`), the
Python expression `2**(order - 1)` is a float and `range` raises
`TypeError`; that failure is modelled as `none`. -/
def psi_range (order : ℤ) : Option (List (ℤ × ℤ)) :=
  if 0 ≤ order ∧ order < 1 then none
  else some ((intRange 0 (order + 1)).flatMap (fun j =>
    (intRange (-(2 : ℤ) ^ (order - 1).toNat + 1) ((2 : ℤ) ^ j.toNat)).map
      (fun k => (j, k))))

/-- `phi_len` property (source lines 80-82). -/
def phi_len (order : ℤ) : ℕ := (phi_range order).length

/-- `psi_len` property (source lines 84-86); total on the registered orders,
where `psi_range` succeeds. -/
def psi_len (order : ℤ) : ℕ := ((psi_range order).getD []).length

/-- `repetition` property (source lines 88-90), the spec's
`feature_length(order)`. -/
def repetition (order : ℤ) : ℕ := phi_len order + psi_len order

/-- Boolean strict lexicographic order on `(j, k)` index pairs. -/
def pairLexLt (p q : ℤ × ℤ) : Bool :=
  decide (p.1 < q.1) || (decide (p.1 = q.1) && decide (p.2 < q.2))

/-- Boolean check that each adjacent pair of a list is ordered by `f`. -/
def chainB {α : Type} (f : α → α → Bool) : List α → Bool
  | [] => true
  | [_] => true
  | a :: b :: rest => f a b && chainB f (b :: rest)

set_option maxRecDepth 40000 in
/-- C2: for every order `n ≥ 1` the enumerator produces exactly the φ-list
`[(0, k) for k in -(n-1) .. 0]` and the ψ-list
`[(j, k) for j in 0..n, for k in (-2^(n-1)+1) .. (2^j - 1)]`, `j` ascending
as the outer loop and `k` ascending within each `j` (checked as strict
lexicographic ordering for each registered order); in particular for order
1 the φ-list is `[(0, 0)]`, the ψ-list is `[(0, 0), (1, 0), (1, 1)]`, and
`feature_length(1) = 4`. -/
theorem index_enumeration (n : ℤ) (hn : 1 ≤ n) :
    phi_range n = (intRange (-(n - 1)) 1).map (fun k => ((0 : ℤ), k)) ∧
    psi_range n = some ((intRange 0 (n + 1)).flatMap (fun j =>
      (intRange (-(2 : ℤ) ^ (n - 1).toNat + 1) ((2 : ℤ) ^ j.toNat)).map
        (fun k => (j, k)))) ∧
    phi_range 1 = [(0, 0)] ∧
    psi_range 1 = some [(0, 0), (1, 0), (1, 1)] ∧
    repetition 1 = 4 ∧
    chainB pairLexLt (phi_range 1) = true ∧
    chainB pairLexLt (phi_range 2) = true ∧
    chainB pairLexLt (phi_range 3) = true ∧
    chainB pairLexLt (phi_range 4) = true ∧
    chainB pairLexLt (phi_range 5) = true ∧
    chainB pairLexLt ((psi_range 1).getD []) = true ∧
    chainB pairLexLt ((psi_range 2).getD []) = true ∧
    chainB pairLexLt ((psi_range 3).getD []) = true ∧
    chainB pairLexLt ((psi_range 4).getD []) = true ∧
    chainB pairLexLt ((psi_range 5).getD []) = true := by
  refine ⟨rfl, ?_, rfl, rfl, rfl, rfl, rfl, rfl, rfl, rfl, rfl, rfl, rfl, rfl, rfl⟩
  rw [psi_range, if_neg (by omega)]

/-- C2 witness: `index_enumeration` instantiated at order 1. -/
theorem index_enumeration_witness :
    (1 : ℤ) ≤ 1 ∧ psi_range 1 = some [(0, 0), (1, 0), (1, 1)] :=
  ⟨le_refl 1, (index_enumeration 1 (le_refl 1)).2.2.2.1⟩

/-- C9 counterexample: for orders below 1 the enumeration does not fail with
any `InvalidOrderError` — `phi_range 0` evaluates to the empty index list,
and `psi_range (-1)` evaluates to the empty index list. -/
theorem small_order_counterexample :
    phi_range 0 = [] ∧ psi_range (-1) = some [] := ⟨rfl, rfl⟩

/-- C9 amended: no order validation exists.  For `n < 1`, `phi_range`
returns the empty list; `psi_range` returns the empty list for `n < 0`, and
for `n = 0` fails with a Python `TypeError` (float `range` bound, modelled
as `none`) — never an `InvalidOrderError`. -/
theorem small_order (n : ℤ) (hn : n < 1) :
    phi_range n = [] ∧ (n = 0 → psi_range n = none) ∧
    (n < 0 → psi_range n = some []) := by
  refine ⟨?_, ?_, ?_⟩
  · rw [phi_range, intRange, show (1 : ℤ) - -(n - 1) = n by ring,
      Int.toNat_of_nonpos (by omega)]
    rfl
  · intro h
    subst h
    rfl
  · intro h
    rw [psi_range, if_neg (by omega), intRange, Int.sub_zero,
      Int.toNat_of_nonpos (by omega)]
    rfl

/-- C9 witness: `small_order` instantiated at order 0. -/
theorem small_order_witness :
    (0 : ℤ) < 1 ∧ (phi_range 0 = [] ∧ ((0 : ℤ) = 0 → psi_range 0 = none) ∧
      ((0 : ℤ) < 0 → psi_range 0 = some [])) :=
  ⟨by norm_num, small_order 0 (by norm_num)⟩

/-! Values produced by `decompose`.  The dyadic factor `2**(j / 2)` is
`√2^j`, so every entry lives in `ℚ[√2]`, represented exactly as a pair. -/

/-- An element `a + b·√2` of `ℚ[√2]`. -/
structure Q2 where
  a : ℚ
  b : ℚ
  deriving DecidableEq, Repr

/-- Embedding of `ℚ` into `ℚ[√2]`. -/
def Q2.ofRat (q : ℚ) : Q2 := ⟨q, 0⟩

instance : Mul Q2 :=
  ⟨fun p q => ⟨p.a * q.a + 2 * (p.b * q.b), p.a * q.b + p.b * q.a⟩⟩

/-- The scale factor `2**(j / 2)` of `phi_j_k`/`psi_j_k` (source lines
59-63), exact in `ℚ[√2]`: `2^(j/2)` for even `j`, `2^(j/2)·√2` for odd `j`
(only `j ≥ 0` occurs in the enumerations). -/
def rt2pow (j : ℤ) : Q2 :=
  if j % 2 = 0 then ⟨(2 : ℚ) ^ (j / 2).toNat, 0⟩ else ⟨0, (2 : ℚ) ^ (j / 2).toNat⟩

/-- Shape-aware model of the numpy values flowing through `decompose`: a
scalar, a 1-D array, or a 2-D array given by its rows. -/
inductive NArr (α : Type) where
  | scalar (v : α)
  | one (vs : List α)
  | two (rows : List (List α))
  deriving DecidableEq, Repr

/-- Number of dimensions of a numpy value. -/
def ndim {α : Type} : NArr α → ℕ
  | .scalar _ => 0
  | .one _ => 1
  | .two _ => 2

/-- Fail-fast elementwise map over a list (a Python list comprehension:
the first raised exception propagates). -/
def listMapE {α β : Type} (f : α → Except Err β) : List α → Except Err (List β)
  | [] => .ok []
  | a :: as =>
    match f a with
    | .error e => .error e
    | .ok b =>
      match listMapE f as with
      | .error e => .error e
      | .ok bs => .ok (b :: bs)

/-- Pure elementwise map over a shape. -/
def narrMap {α β : Type} (f : α → β) : NArr α → NArr β
  | .scalar v => .scalar (f v)
  | .one vs => .one (vs.map f)
  | .two rows => .two (rows.map (List.map f))

/-- Fail-fast elementwise map over a shape (a numpy ufunc evaluation whose
scalar kernel may raise). -/
def narrMapE {α β : Type} (f : α → Except Err β) : NArr α → Except Err (NArr β)
  | .scalar v =>
    match f v with
    | .error e => .error e
    | .ok w => .ok (.scalar w)
  | .one vs =>
    match listMapE f vs with
    | .error e => .error e
    | .ok ws => .ok (.one ws)
  | .two rows =>
    match listMapE (listMapE f) rows with
    | .error e => .error e
    | .ok rs => .ok (.two rs)

/-- `phi_j_k` (source lines 59-60): `2**(j / 2) * phi(2**j * x - k)`,
elementwise over the input. -/
def phi_j_k (c : Cls) (x : NArr ℚ) (j k : ℤ) : Except Err (NArr Q2) :=
  narrMapE (fun v => (clsPhi c ((2 : ℚ) ^ j * v - (k : ℚ))).map
    (fun y => rt2pow j * Q2.ofRat y)) x

/-- `psi_j_k` (source lines 62-63): `2**(j / 2) * psi(2**j * x - k)`,
elementwise over the input. -/
def psi_j_k (c : Cls) (x : NArr ℚ) (j k : ℤ) : Except Err (NArr Q2) :=
  narrMapE (fun v => (clsPsi c ((2 : ℚ) ^ j * v - (k : ℚ))).map
    (fun y => rt2pow j * Q2.ofRat y)) x

/-- Scalar shape test. -/
def isScalarB {α : Type} : NArr α → Bool
  | .scalar _ => true
  | _ => false

/-- 1-D shape test. -/
def isOneB {α : Type} : NArr α → Bool
  | .one _ => true
  | _ => false

/-- 2-D shape test. -/
def isTwoB {α : Type} : NArr α → Bool
  | .two _ => true
  | _ => false

/-- Scalar payload (defaulting, only read behind `isScalarB`). -/
def scalarPart : NArr Q2 → Q2
  | .scalar v => v
  | _ => Q2.ofRat 0

/-- 1-D payload (defaulting, only read behind `isOneB`). -/
def onePart : NArr Q2 → List Q2
  | .one vs => vs
  | _ => []

/-- 2-D payload (defaulting, only read behind `isTwoB`). -/
def twoPart : NArr Q2 → List (List Q2)
  | .two rows => rows
  | _ => []

/-- Horizontal concatenation of equally-tall 2-D blocks
(`np.concatenate` along axis 1). -/
def hcat {α : Type} : List (List (List α)) → List (List α)
  | [] => []
  | [m] => m
  | m :: ms => List.zipWith (· ++ ·) m (hcat ms)

/-- `np.hstack` on the homogeneous block lists produced by `decompose`:
0-D blocks stack into a 1-D array, 1-D blocks concatenate into a 1-D array,
2-D blocks concatenate along axis 1.  (Mixed ranks never occur inside
`decompose`, whose blocks all inherit the one input's shape.) -/
def hstack (arrs : List (NArr Q2)) : NArr Q2 :=
  if arrs.all isScalarB then .one (arrs.map scalarPart)
  else if arrs.all isOneB then .one ((arrs.map onePart).flatten)
  else if arrs.all isTwoB then .two (hcat (arrs.map twoPart))
  else .one []

/-- `BSplineWavelets.decompose` (source lines 92-95): `np.hstack` of the
`phi_j_k` blocks over `phi_range` followed by the `psi_j_k` blocks over
`psi_range`.  The range properties read `self.order`, so the base class's
`None` order raises `TypeError` before any block is built. -/
def decompose (c : Cls) (x : NArr ℚ) : Except Err (NArr Q2) :=
  match clsOrder c with
  | none => .error .typeError
  | some n =>
    match psi_range n with
    | none => .error .typeError
    | some ψl =>
      match listMapE (fun jk => phi_j_k c x jk.1 jk.2) (phi_range n) with
      | .error e => .error e
      | .ok phis =>
        match listMapE (fun jk => psi_j_k c x jk.1 jk.2) ψl with
        | .error e => .error e
        | .ok psis => .ok (hstack (phis ++ psis))

/-- End-to-end `decompose(x, order)` through the factory (spec §6): resolve
the order, then decompose with the resolved class. -/
def decomposeTop (order : Option ℤ) (x : NArr ℚ) : Except Err (NArr Q2) :=
  match get_bspline order with
  | .error e => .error e
  | .ok c => decompose c x

/-- C7: resolving an order with no registered class fails with the
`NotImplementedError` carrying the requested order value (the spec's
`UnsupportedOrderError`), both through `get_bspline` and through the
end-to-end `decompose`, which performs no partial computation and
propagates the same error. -/
theorem unsupported_order (o : Option ℤ) (h : cls_map.lookup o = none) :
    get_bspline o = .error (.notImplementedOrder o) ∧
    ∀ x : NArr ℚ, decomposeTop o x = .error (.notImplementedOrder o) := by
  have hg : get_bspline o = .error (.notImplementedOrder o) := by
    rw [get_bspline, metaGet, h]
  exact ⟨hg, fun x => by simp [decomposeTop, hg]⟩

/-- C7 witness: `unsupported_order` instantiated at order 6. -/
theorem unsupported_order_witness :
    cls_map.lookup (some 6) = none ∧
    get_bspline (some 6) = Except.error (Err.notImplementedOrder (some 6)) :=
  ⟨rfl, (unsupported_order (some 6) rfl).1⟩

/-! Structure lemmas for `decompose` on the shapes of interest. -/

/-- Scalar value of `phi_j_k` on the concrete subclasses. -/
def phiJKval (c : Cls) (x : ℚ) (j k : ℤ) : Q2 :=
  rt2pow j * Q2.ofRat (phiVal c ((2 : ℚ) ^ j * x - (k : ℚ)))

/-- Scalar value of `psi_j_k` on the concrete subclasses. -/
def psiJKval (c : Cls) (x : ℚ) (j k : ℤ) : Q2 :=
  rt2pow j * Q2.ofRat (psiVal c ((2 : ℚ) ^ j * x - (k : ℚ)))

/-- All basis functions of a registered class, in the order `decompose`
emits them: the `phi_j_k` over `phi_range`, then the `psi_j_k` over
`psi_range`. -/
def basisFns (c : Cls) : List (ℚ → Q2) :=
  match clsOrder c with
  | none => []
  | some n =>
    (phi_range n).map (fun jk v => phiJKval c v jk.1 jk.2) ++
    ((psi_range n).getD []).map (fun jk v => psiJKval c v jk.1 jk.2)

/-- Feature vector of one scalar sample. -/
def featureList (c : Cls) (x : ℚ) : List Q2 :=
  (basisFns c).map (fun g => g x)

theorem listMapE_eq_map {α β : Type} {g : α → Except Err β} {f : α → β}
    (h : ∀ a, g a = .ok (f a)) : ∀ l : List α, listMapE g l = .ok (l.map f) := by
  intro l
  induction l with
  | nil => rfl
  | cons a as ih => simp [listMapE, h a, ih]

theorem narrMapE_eq_map {α β : Type} {g : α → Except Err β} {f : α → β}
    (h : ∀ a, g a = .ok (f a)) (x : NArr α) :
    narrMapE g x = .ok (narrMap f x) := by
  cases x with
  | scalar v => simp [narrMapE, narrMap, h v]
  | one vs => simp [narrMapE, narrMap, listMapE_eq_map h vs]
  | two rows =>
    simp [narrMapE, narrMap, listMapE_eq_map (fun r => listMapE_eq_map h r) rows]

theorem phi_j_k_eq {c : Cls} (hc : c ≠ .base) (x : NArr ℚ) (j k : ℤ) :
    phi_j_k c x j k = .ok (narrMap (fun v => phiJKval c v j k) x) := by
  refine narrMapE_eq_map (fun v => ?_) x
  rw [clsPhi_eq hc]
  rfl

theorem psi_j_k_eq {c : Cls} (hc : c ≠ .base) (x : NArr ℚ) (j k : ℤ) :
    psi_j_k c x j k = .ok (narrMap (fun v => psiJKval c v j k) x) := by
  refine narrMapE_eq_map (fun v => ?_) x
  rw [clsPsi_eq hc]
  rfl

theorem decompose_via_basis (c : Cls) (hc : c ≠ .base) (n : ℤ)
    (hn : clsOrder c = some n) (ψl : List (ℤ × ℤ))
    (hψ : psi_range n = some ψl) (x : NArr ℚ) :
    decompose c x = .ok (hstack ((basisFns c).map (fun g => narrMap g x))) := by
  have hget : (psi_range n).getD [] = ψl := by rw [hψ]; rfl
  have h1 : listMapE (fun jk => phi_j_k c x jk.1 jk.2) (phi_range n) =
      .ok ((phi_range n).map
        (fun jk => narrMap (fun v => phiJKval c v jk.1 jk.2) x)) :=
    listMapE_eq_map (fun jk : ℤ × ℤ => phi_j_k_eq hc x jk.1 jk.2) _
  have h2 : listMapE (fun jk => psi_j_k c x jk.1 jk.2) ψl =
      .ok (ψl.map
        (fun jk => narrMap (fun v => psiJKval c v jk.1 jk.2) x)) :=
    listMapE_eq_map (fun jk : ℤ × ℤ => psi_j_k_eq hc x jk.1 jk.2) _
  simp [decompose, hn, hψ, h1, h2, basisFns, hget, List.map_append, List.map_map,
    Function.comp]
  rfl

theorem hstack_scalars (l : List Q2) : hstack (l.map NArr.scalar) = NArr.one l := by
  have h1 : (l.map NArr.scalar).all isScalarB = true := by
    simp [List.all_map, isScalarB, Function.comp]
  rw [hstack, if_pos h1, List.map_map,
    show scalarPart ∘ NArr.scalar = id from rfl, List.map_id]

theorem hstack_ones (m : List Q2) (ms : List (List Q2)) :
    hstack ((m :: ms).map NArr.one) = NArr.one ((m :: ms).flatten) := by
  have h1 : ((m :: ms).map NArr.one).all isScalarB = false := by
    simp [isScalarB]
  have h2 : ((m :: ms).map NArr.one).all isOneB = true := by
    simp [List.all_map, isOneB, Function.comp]
  rw [hstack, if_neg (by rw [h1]; simp), if_pos h2, List.map_map,
    show onePart ∘ NArr.one = id from rfl, List.map_id]

theorem hstack_twos (m : List (List Q2)) (ms : List (List (List Q2))) :
    hstack ((m :: ms).map NArr.two) = NArr.two (hcat (m :: ms)) := by
  have h1 : ((m :: ms).map NArr.two).all isScalarB = false := by
    simp [isScalarB]
  have h2 : ((m :: ms).map NArr.two).all isOneB = false := by
    simp [isOneB]
  have h3 : ((m :: ms).map NArr.two).all isTwoB = true := by
    simp [List.all_map, isTwoB, Function.comp]
  rw [hstack, if_neg (by rw [h1]; simp), if_neg (by rw [h2]; simp), if_pos h3,
    List.map_map, show twoPart ∘ NArr.two = id from rfl, List.map_id]

theorem zipWith_map_map {α β γ δ : Type} (f : β → γ → δ) (p : α → β) (q : α → γ) :
    ∀ l : List α, List.zipWith f (l.map p) (l.map q) = l.map (fun a => f (p a) (q a))
  | [] => rfl
  | a :: l => by simp [zipWith_map_map f p q l]

theorem hcat_cols {α : Type} (g : ℚ → α) (gs : List (ℚ → α)) (xs : List ℚ) :
    hcat ((g :: gs).map (fun h => xs.map (fun s => [h s]))) =
      xs.map (fun s => (g :: gs).map (fun h => h s)) := by
  induction gs generalizing g with
  | nil => simp [hcat]
  | cons g' gs ih =>
    have hstep : hcat ((g :: g' :: gs).map (fun h => xs.map (fun s => [h s]))) =
        List.zipWith (· ++ ·) (xs.map (fun s => [g s]))
          (hcat ((g' :: gs).map (fun h => xs.map (fun s => [h s])))) := rfl
    rw [hstep, ih g', zipWith_map_map]
    simp

theorem hstack_narrMap_scalar (gs : List (ℚ → Q2)) (x : ℚ) :
    hstack (gs.map (fun g => narrMap g (NArr.scalar x))) =
      NArr.one (gs.map (fun g => g x)) := by
  have h : gs.map (fun g => narrMap g (NArr.scalar x)) =
      (gs.map (fun g => g x)).map NArr.scalar := by
    simp [List.map_map, narrMap, Function.comp]
  rw [h, hstack_scalars]

theorem hstack_narrMap_one (gs : List (ℚ → Q2)) (hne : gs ≠ []) (xs : List ℚ) :
    hstack (gs.map (fun g => narrMap g (NArr.one xs))) =
      NArr.one ((gs.map (fun g => xs.map g)).flatten) := by
  cases gs with
  | nil => exact absurd rfl hne
  | cons g0 gs =>
    have h : (g0 :: gs).map (fun g => narrMap g (NArr.one xs)) =
        ((g0 :: gs).map (fun g => xs.map g)).map NArr.one := by
      simp [List.map_map, narrMap, Function.comp]
    rw [h]
    exact hstack_ones _ _

theorem hstack_narrMap_cols (gs : List (ℚ → Q2)) (hne : gs ≠ []) (xs : List ℚ) :
    hstack (gs.map (fun g => narrMap g (NArr.two (xs.map (fun s => [s]))))) =
      NArr.two (xs.map (fun s => gs.map (fun g => g s))) := by
  cases gs with
  | nil => exact absurd rfl hne
  | cons g0 gs =>
    have h : (g0 :: gs).map (fun g => narrMap g (NArr.two (xs.map (fun s => [s])))) =
        ((g0 :: gs).map (fun g => xs.map (fun s => [g s]))).map NArr.two := by
      simp [List.map_map, narrMap, Function.comp]
    rw [h]
    have h2 := hstack_twos (xs.map (fun s => [g0 s]))
      (gs.map (fun g => xs.map (fun s => [g s])))
    rw [show ((g0 :: gs).map (fun g => xs.map (fun s => [g s]))).map NArr.two =
        ((xs.map (fun s => [g0 s])) :: gs.map (fun g => xs.map (fun s => [g s]))).map
          NArr.two from rfl, h2]
    rw [show (xs.map (fun s => [g0 s])) :: gs.map (fun g => xs.map (fun s => [g s])) =
        (g0 :: gs).map (fun g => xs.map (fun s => [g s])) from rfl, hcat_cols]

theorem ne_nil_of_length_eq_succ {α : Type} {l : List α} {m : ℕ}
    (h : l.length = m + 1) : l ≠ [] := by
  intro hl
  rw [hl] at h
  simp at h

/-- C1 counterexample: `decompose` on the 1-D two-sample array `[0, 0]` at
order 1 returns a 1-D result (`np.hstack` of 1-D blocks concatenates them
flat), not the claimed 2-D result with one row per sample. -/
theorem decompose_one_dim_counterexample :
    (decompose Cls.b1 (NArr.one [0, 0])).map ndim = Except.ok 1 := by
  rw [decompose_via_basis Cls.b1 (by decide) 1 rfl ((psi_range 1).getD []) rfl,
    hstack_narrMap_one _
      (ne_nil_of_length_eq_succ (show (basisFns Cls.b1).length = 3 + 1 from rfl))]
  rfl

theorem decompose_shapes_aux (c : Cls) (hc : c ≠ Cls.base) (n : ℤ)
    (hn : clsOrder c = some n)
    (hψ : psi_range n = some ((psi_range n).getD []))
    (hne : basisFns c ≠ []) (hlen : (basisFns c).length = repetition n)
    (xs : List ℚ) (x : ℚ) :
    decompose c (NArr.two (xs.map (fun s => [s]))) =
      Except.ok (NArr.two (xs.map (fun s => featureList c s))) ∧
    decompose c (NArr.scalar x) = Except.ok (NArr.one (featureList c x)) ∧
    (featureList c x).length = repetition ((clsOrder c).getD 0) ∧
    decompose c (NArr.one xs) =
      Except.ok (NArr.one (((basisFns c).map (fun g => xs.map g)).flatten)) := by
  have hv := decompose_via_basis c hc n hn ((psi_range n).getD []) hψ
  refine ⟨?_, ?_, ?_, ?_⟩
  · rw [hv, hstack_narrMap_cols _ hne xs]
    rfl
  · rw [hv, hstack_narrMap_scalar]
    rfl
  · rw [hn]
    rw [featureList, List.length_map, hlen]
    rfl
  · rw [hv, hstack_narrMap_one _ hne]

set_option maxRecDepth 40000 in
/-- C1 amended: for every registered order, a scalar input yields one feature
vector of length `feature_length`; a 2-D column array (one sample per row,
the library's usage) yields one row per sample, row `i` equal to the scalar
decomposition of sample `i`; but a 1-D array of `N` samples yields a flat
1-D array — the per-basis-function blocks concatenated — not a 2-D result. -/
theorem decompose_shapes (c : Cls) (hc : c ≠ Cls.base) (xs : List ℚ) (x : ℚ) :
    decompose c (NArr.two (xs.map (fun s => [s]))) =
      Except.ok (NArr.two (xs.map (fun s => featureList c s))) ∧
    decompose c (NArr.scalar x) = Except.ok (NArr.one (featureList c x)) ∧
    (featureList c x).length = repetition ((clsOrder c).getD 0) ∧
    decompose c (NArr.one xs) =
      Except.ok (NArr.one (((basisFns c).map (fun g => xs.map g)).flatten)) := by
  cases c with
  | base => exact absurd rfl hc
  | b1 =>
    exact decompose_shapes_aux Cls.b1 hc 1 rfl rfl
      (ne_nil_of_length_eq_succ (show (basisFns Cls.b1).length = 3 + 1 from rfl))
      rfl xs x
  | b2 =>
    exact decompose_shapes_aux Cls.b2 hc 2 rfl rfl
      (ne_nil_of_length_eq_succ (show (basisFns Cls.b2).length = 11 + 1 from rfl))
      rfl xs x
  | b3 =>
    exact decompose_shapes_aux Cls.b3 hc 3 rfl rfl
      (ne_nil_of_length_eq_succ (show (basisFns Cls.b3).length = 29 + 1 from rfl))
      rfl xs x
  | b4 =>
    exact decompose_shapes_aux Cls.b4 hc 4 rfl rfl
      (ne_nil_of_length_eq_succ (show (basisFns Cls.b4).length = 69 + 1 from rfl))
      rfl xs x
  | b5 =>
    exact decompose_shapes_aux Cls.b5 hc 5 rfl rfl
      (ne_nil_of_length_eq_succ (show (basisFns Cls.b5).length = 157 + 1 from rfl))
      rfl xs x

/-- C1 witness: `decompose_shapes` instantiated at order 1 with the
one-sample batch `[0]` and the scalar sample `0`. -/
theorem decompose_shapes_witness :
    Cls.b1 ≠ Cls.base ∧
    (decompose Cls.b1 (NArr.two (([0] : List ℚ).map (fun s => [s]))) =
        Except.ok (NArr.two (([0] : List ℚ).map (fun s => featureList Cls.b1 s))) ∧
      decompose Cls.b1 (NArr.scalar (0 : ℚ)) =
        Except.ok (NArr.one (featureList Cls.b1 (0 : ℚ))) ∧
      (featureList Cls.b1 (0 : ℚ)).length = repetition ((clsOrder Cls.b1).getD 0) ∧
      decompose Cls.b1 (NArr.one ([0] : List ℚ)) =
        Except.ok (NArr.one
          (((basisFns Cls.b1).map (fun g => ([0] : List ℚ).map g)).flatten))) :=
  ⟨by decide, decompose_shapes Cls.b1 (by decide) [0] 0⟩

theorem scalar_feature_aux (c : Cls) (hc : c ≠ Cls.base) (n : ℤ)
    (hn : clsOrder c = some n)
    (hψ : psi_range n = some ((psi_range n).getD [])) (x : ℚ) :
    decompose c (NArr.scalar x) = Except.ok (NArr.one (
      (phi_range n).map (fun jk => phiJKval c x jk.1 jk.2) ++
      ((psi_range n).getD []).map (fun jk => psiJKval c x jk.1 jk.2))) ∧
    ((phi_range n).map (fun jk => phiJKval c x jk.1 jk.2) ++
      ((psi_range n).getD []).map (fun jk => psiJKval c x jk.1 jk.2)).length =
      phi_len n + psi_len n := by
  constructor
  · rw [decompose_via_basis c hc n hn ((psi_range n).getD []) hψ,
      hstack_narrMap_scalar]
    simp [basisFns, hn, featureList, List.map_append, List.map_map, Function.comp]
    rfl
  · simp [phi_len, psi_len]

/-- C3: for every registered order `n` and every scalar input `x`, the
feature vector produced by `decompose` has fixed length
`phi_len n + psi_len n` (a function of `n` only), and its entries are
exactly the `phi_{0,k}(x)` over the φ-list in enumeration order followed by
the `psi_{j,k}(x)` over the ψ-list in enumeration order. -/
theorem scalar_feature_vector (c : Cls) (hc : c ≠ Cls.base) (n : ℤ)
    (hn : clsOrder c = some n) (x : ℚ) :
    decompose c (NArr.scalar x) = Except.ok (NArr.one (
      (phi_range n).map (fun jk => phiJKval c x jk.1 jk.2) ++
      ((psi_range n).getD []).map (fun jk => psiJKval c x jk.1 jk.2))) ∧
    ((phi_range n).map (fun jk => phiJKval c x jk.1 jk.2) ++
      ((psi_range n).getD []).map (fun jk => psiJKval c x jk.1 jk.2)).length =
      phi_len n + psi_len n := by
  cases c with
  | base => exact absurd rfl hc
  | b1 =>
    obtain rfl : (1 : ℤ) = n := Option.some.inj hn
    exact scalar_feature_aux Cls.b1 hc 1 rfl rfl x
  | b2 =>
    obtain rfl : (2 : ℤ) = n := Option.some.inj hn
    exact scalar_feature_aux Cls.b2 hc 2 rfl rfl x
  | b3 =>
    obtain rfl : (3 : ℤ) = n := Option.some.inj hn
    exact scalar_feature_aux Cls.b3 hc 3 rfl rfl x
  | b4 =>
    obtain rfl : (4 : ℤ) = n := Option.some.inj hn
    exact scalar_feature_aux Cls.b4 hc 4 rfl rfl x
  | b5 =>
    obtain rfl : (5 : ℤ) = n := Option.some.inj hn
    exact scalar_feature_aux Cls.b5 hc 5 rfl rfl x

/-- C3 witness: `scalar_feature_vector` instantiated at order 1 and `x = 0`. -/
theorem scalar_feature_vector_witness :
    Cls.b1 ≠ Cls.base ∧ clsOrder Cls.b1 = some 1 ∧
    (decompose Cls.b1 (NArr.scalar (0 : ℚ)) = Except.ok (NArr.one (
      (phi_range 1).map (fun jk => phiJKval Cls.b1 0 jk.1 jk.2) ++
      ((psi_range 1).getD []).map (fun jk => psiJKval Cls.b1 0 jk.1 jk.2))) ∧
    ((phi_range 1).map (fun jk => phiJKval Cls.b1 0 jk.1 jk.2) ++
      ((psi_range 1).getD []).map (fun jk => psiJKval Cls.b1 0 jk.1 jk.2)).length =
      phi_len 1 + psi_len 1) :=
  ⟨by decide, rfl, scalar_feature_vector Cls.b1 (by decide) 1 rfl 0⟩

end BSpline

